import Mathlib

/-!
Verification development for the starklings watch-and-verify engine
(`src/verify.rs` and `src/main.rs`).

The engine's collaborators (the external Cairo toolchain, the marker-based
completion check in `exercise.rs`) are modelled as oracle fields of
`Exercise`: each `Exercise` value is a snapshot of an exercise together with
the outcome its collaborators would report during the run under study.
Machine-specific presentation (ANSI styling, emoji) is out of scope; the
information carried by the progress bar (position, percentage messages) is
modelled exactly.
-/

namespace Starklings

instance {ε α : Type} [DecidableEq ε] [DecidableEq α] : DecidableEq (Except ε α) :=
  fun a b =>
    match a, b with
    | Except.ok x, Except.ok y => decidable_of_iff (x = y) (by simp)
    | Except.error x, Except.error y => decidable_of_iff (x = y) (by simp)
    | Except.ok _, Except.error _ => isFalse (by simp)
    | Except.error _, Except.ok _ => isFalse (by simp)

/-- `Mode` from `exercise.rs` (out of src, used by `verify.rs`):
whether the exercise is graded by running it or by running its tests. -/
inductive Mode where
  | Compile
  | Test
deriving DecidableEq, Repr

/-- A context line of a pending exercise, as produced by the marker-based
completion check (`State::Pending(context)` in `verify.rs`). -/
structure ContextLine where
  line : String
  number : Nat
  important : Bool
deriving DecidableEq, Repr

/-- `State` from `exercise.rs`: result of re-reading the exercise's source
marker. `Done` means the `I AM NOT DONE` marker is absent. -/
inductive State where
  | Done
  | Pending (context : List ContextLine)
deriving DecidableEq, Repr

/-- An exercise snapshot. `name`, `path`, `mode`, `hint` come from the
manifest (`info.toml`). `runResult`, `testResult` and `state` are oracles
for the external collaborators: what `exercise.run_cairo()`,
`exercise.test_cairo()` and `exercise.state()` report during this run.
`path` is a list of path components relative to the repository root. -/
structure Exercise where
  name : String
  path : List String
  mode : Mode
  hint : String
  runResult : Except String String
  testResult : Except String String
  state : State
deriving DecidableEq, Repr

/-- Modelled from the spec: `looks_done` lives in `exercise.rs`, which is not
under src/. Per the spec, "exercise completion is determined solely by
(source file content marker state)" and is "recomputed from the file each
time `looks_done`-equivalent is invoked"; in a snapshot it coincides with
`state` being `Done`. -/
def looks_done (e : Exercise) : Bool :=
  match e.state with
  | State.Done => true
  | State.Pending _ => false

/-- `prompt_for_completion` (verify.rs:108-168), restricted to its return
value: `true` iff re-reading the exercise's source gives `State::Done`;
on `State::Pending` it prints the success banner, output and context lines
and returns `false`. The printed text is presentation and not modelled. -/
def prompt_for_completion (e : Exercise) (_promptOutput : Option String) : Bool :=
  match e.state with
  | State.Done => true
  | State.Pending _ => false

/-- `compile_and_run_cairo` (verify.rs:68-85): invoke `exercise.run_cairo()`;
on error print the diagnostic and return `Err(())`, else return the output. -/
def compile_and_run_cairo (e : Exercise) : Except Unit String :=
  match e.runResult with
  | Except.error _ => Except.error ()
  | Except.ok out => Except.ok out

/-- `compile_and_test_cairo` (verify.rs:89-106). -/
def compile_and_test_cairo (e : Exercise) : Except Unit String :=
  match e.testResult with
  | Except.error _ => Except.error ()
  | Except.ok out => Except.ok out

/-- `compile_and_run_interactively` (verify.rs:39-50). -/
def compile_and_run_interactively (e : Exercise) : Except Unit Bool :=
  match compile_and_run_cairo e with
  | Except.error () => Except.error ()
  | Except.ok runState => Except.ok (prompt_for_completion e (some runState))

/-- `compile_and_test_interactively` (verify.rs:53-64). -/
def compile_and_test_interactively (e : Exercise) : Except Unit Bool :=
  match compile_and_test_cairo e with
  | Except.error () => Except.error ()
  | Except.ok runState => Except.ok (prompt_for_completion e (some runState))

/-- The per-exercise test of the `verify` loop (verify.rs:24-28): dispatch on
`mode`, then `compile_result.unwrap_or(false)`. -/
def stepPasses (e : Exercise) : Bool :=
  let compile_result :=
    match e.mode with
    | Mode.Compile => compile_and_run_interactively e
    | Mode.Test => compile_and_test_interactively e
  match compile_result with
  | Except.ok b => b
  | Except.error () => false

/-- Whether the toolchain invocation selected by the exercise's mode
succeeds (used to state claims; `stepPasses = toolchainOk && looks_done`). -/
def toolchainOk (e : Exercise) : Bool :=
  match e.mode with
  | Mode.Compile => e.runResult.isOk
  | Mode.Test => e.testResult.isOk

/-- `verify` (verify.rs:11-36), result only: walk the sequence in order and
return `Err` at the first exercise whose step fails, `Ok(())` if all pass.
The `progress` pair only feeds the progress bar (modelled separately by
`verifyBarPositions` / `verifyBarMessages`) and does not affect the result. -/
def verify (exercises : List Exercise) (progress : Nat × Nat) : Except Exercise Unit :=
  match exercises with
  | [] => Except.ok ()
  | e :: rest => if stepPasses e then verify rest progress else Except.error e

/-- Trace of the toolchain invocations performed by the `verify` loop: each
iteration invokes the toolchain exactly once (inside
`compile_and_run_cairo` / `compile_and_test_cairo`) before testing the
result, so the trace is the processed prefix including the first failure. -/
def verifyInvoked (exercises : List Exercise) : List Exercise :=
  match exercises with
  | [] => []
  | e :: rest => if stepPasses e then e :: verifyInvoked rest else [e]

/-- Number of exercises of the sequence processed successfully by the
`verify` loop (iterations that reach `bar.inc(1)`). -/
def passedPrefixCount (exercises : List Exercise) : Nat :=
  match exercises with
  | [] => 0
  | e :: rest => if stepPasses e then passedPrefixCount rest + 1 else 0

/-- Progress-bar positions after each `bar.inc(1)` of the `verify` loop
(verify.rs:33). The bar starts at `num_done` (`bar.set_position`,
verify.rs:22) and is incremented once per successfully processed exercise. -/
def verifyBarPositions (pos : Nat) (exercises : List Exercise) : List Nat :=
  match exercises with
  | [] => []
  | e :: rest =>
    if stepPasses e then (pos + 1) :: verifyBarPositions (pos + 1) rest else []

/-- The percentage messages set by the `verify` loop (verify.rs:31-32), in
order: each successful iteration sets the message to
`num_done as f32 / total as f32 * 100.0`, with `num_done` and `total` the
components of the `progress` argument. Modelled over `ℚ`; the `f32`
rounding of the printed text is presentation. -/
def verifyBarMessages (numDone total : Nat) (exercises : List Exercise) : List ℚ :=
  match exercises with
  | [] => []
  | e :: rest =>
    if stepPasses e then
      ((numDone : ℚ) / (total : ℚ) * 100) :: verifyBarMessages numDone total rest
    else []

/-! ## Watch coordinator (`main.rs`) -/

/-- Split a list of characters at every dot (used to model
`std::path::Path::extension`). -/
def splitOnDot (cs : List Char) : List (List Char) :=
  match cs with
  | [] => [[]]
  | c :: rest =>
    let r := splitOnDot rest
    if c = '.' then [] :: r
    else
      match r with
      | [] => [[c]]
      | h :: t => (c :: h) :: t

/-- `Path::extension` on a file name, as used by the `b.extension()` check
(main.rs:407): `none` when the name has no dot, `none` for a hidden file
whose only dot is leading (".cairo"), else the part after the last dot. -/
def fileExtension (filename : String) : Option String :=
  match splitOnDot filename.data with
  | [] => none
  | [_] => none
  | [[], _] => none
  | parts => (parts.getLast?).map (fun cs => String.mk cs)

/-- A filesystem path as seen by the watcher: its components (after
`canonicalize`, main.rs:408) together with an oracle for `b.exists()`
at delivery time (main.rs:407). -/
structure EventPath where
  components : List String
  existsNow : Bool
deriving DecidableEq, Repr

/-- `b.extension()` of an event path: the extension of its last component. -/
def pathExtension (p : EventPath) : Option String :=
  match p.components.getLast? with
  | none => none
  | some filename => fileExtension filename

/-- `Path::ends_with` on component lists, as used by
`filepath.ends_with(&e.path)` (main.rs:411): the child's components are a
suffix of the path's components. -/
def pathEndsWith (filepath child : List String) : Bool :=
  child.isSuffixOf filepath

/-- `notify::DebouncedEvent` restricted to what the loop distinguishes
(main.rs:406-429): `Create`, `Chmod` and `Write` carry the changed path;
every other variant falls into the silent `_ => {}` arm. -/
inductive DebEvent where
  | create (p : EventPath)
  | chmod (p : EventPath)
  | write (p : EventPath)
  | other
deriving DecidableEq, Repr

/-- Result of one `rx.recv_timeout(Duration::from_secs(1))`
(main.rs:404,431-434): an event, the timeout, or a receive error. -/
inductive PollResult where
  | event (ev : DebEvent)
  | timeout
  | recvError (msg : String)
deriving DecidableEq, Repr

/-- One iteration of the event loop, as the coordinator observes it: the
poll result, the exercise snapshots re-read from the filesystem during this
iteration (`looks_done()` / `state()` re-read the files each time), and the
value of the shared `should_quit` flag at the end-of-iteration check
(main.rs:437), written concurrently by the shell thread. -/
structure IterationInput where
  poll : PollResult
  snapshot : List Exercise
  quitAfter : Bool
deriving DecidableEq, Repr

/-- The reordered sequence built for an actionable change event
(main.rs:409-417): the first exercise whose path the changed path ends
with, if any, followed by the not-yet-done exercises whose path the
changed path does not end with, in manifest order. -/
def reorderedSequence (exercises : List Exercise) (filepath : List String) : List Exercise :=
  ((exercises.find? (fun e => pathEndsWith filepath e.path)).toList) ++
    exercises.filter (fun e => !looks_done e && !pathEndsWith filepath e.path)

/-- `num_done` recomputed before a watch-mode pass (main.rs:418). -/
def watchNumDone (exercises : List Exercise) : Nat :=
  (exercises.filter (fun e => looks_done e)).length

/-- The actionability test of the event handler (main.rs:406-407): a
`Create`, `Chmod` or `Write` event whose path has extension `cairo` and
still exists at delivery time. -/
def actionablePoll (poll : PollResult) : Bool :=
  match poll with
  | PollResult.event (DebEvent.create p) => pathExtension p = some "cairo" && p.existsNow
  | PollResult.event (DebEvent.chmod p) => pathExtension p = some "cairo" && p.existsNow
  | PollResult.event (DebEvent.write p) => pathExtension p = some "cairo" && p.existsNow
  | _ => false

/-- What one poll of the event loop body does (main.rs:404-435), before the
quit-flag check: the verify calls made (sequence and progress argument),
whether the loop returned `Ok(WatchStatus::Finished)`, and the value of the
shared `failed_exercise_hint` cell after the body ran. -/
structure StepResult where
  verifyRuns : List (List Exercise × Nat × Nat)
  finished : Bool
  hint : Option String
deriving DecidableEq, Repr

/-- The body of one event-loop iteration (main.rs:404-435): an actionable
`Create`/`Chmod`/`Write` event triggers a verification pass over the
reordered sequence with recomputed progress; `Ok` returns `Finished`, `Err`
stores the failing exercise's hint; every other poll result is a no-op for
the engine state (a receive error is only printed). -/
def processPoll (snapshot : List Exercise) (poll : PollResult) (hint : Option String) :
    StepResult :=
  match poll with
  | PollResult.event ev =>
    match ev with
    | DebEvent.create p | DebEvent.chmod p | DebEvent.write p =>
      if pathExtension p = some "cairo" && p.existsNow then
        let pending := reorderedSequence snapshot p.components
        let numDone := watchNumDone snapshot
        match verify pending (numDone, snapshot.length) with
        | Except.ok _ =>
          { verifyRuns := [(pending, numDone, snapshot.length)], finished := true, hint := hint }
        | Except.error exercise =>
          { verifyRuns := [(pending, numDone, snapshot.length)], finished := false,
            hint := some exercise.hint }
      else { verifyRuns := [], finished := false, hint := hint }
    | DebEvent.other => { verifyRuns := [], finished := false, hint := hint }
  | PollResult.timeout => { verifyRuns := [], finished := false, hint := hint }
  | PollResult.recvError _ => { verifyRuns := [], finished := false, hint := hint }

/-- `WatchStatus` (main.rs:377-380). -/
inductive WatchStatus where
  | Finished
  | Unfinished
deriving DecidableEq, Repr

/-- The event loop (main.rs:403-440) over a finite prefix of iterations:
process the poll result; a pass that returns `Ok` ends the session with
`Finished` at once; otherwise the quit flag is checked at the end of the
iteration and ends the session with `Unfinished` when set. `none` means the
given iterations ran out with the loop still running. -/
def watchLoop (iters : List IterationInput) (hint : Option String) : Option WatchStatus :=
  match iters with
  | [] => none
  | it :: rest =>
    let r := processPoll it.snapshot it.poll hint
    if r.finished then some WatchStatus.Finished
    else if it.quitAfter then some WatchStatus.Unfinished
    else watchLoop rest r.hint

/-- The value of the shared `failed_exercise_hint` cell after each completed
event-loop iteration, for as long as the loop runs. -/
def watchLoopHintTrace (iters : List IterationInput) (hint : Option String) :
    List (Option String) :=
  match iters with
  | [] => []
  | it :: rest =>
    let r := processPoll it.snapshot it.poll hint
    if r.finished then [r.hint]
    else if it.quitAfter then [r.hint]
    else r.hint :: watchLoopHintTrace rest r.hint

/-- `watch` (main.rs:382-441). `watcherNew` and `watchRoot` are oracles for
`Watcher::new` (main.rs:392) and `watcher.watch` on `./exercises`
(main.rs:393); either failure is propagated by `?` before anything else
runs. Then the initial full pass over all exercises with progress
`(0, total)`; `Ok` ends the session with `Finished`, `Err` seeds the shared
hint cell with the failing exercise's hint and enters the event loop. -/
def watch (watcherNew watchRoot : Except String Unit) (exercises : List Exercise)
    (iters : List IterationInput) : Except String (Option WatchStatus) :=
  match watcherNew with
  | Except.error e => Except.error e
  | Except.ok _ =>
    match watchRoot with
    | Except.error e => Except.error e
    | Except.ok _ =>
      match verify exercises (0, exercises.length) with
      | Except.ok _ => Except.ok (some WatchStatus.Finished)
      | Except.error exercise => Except.ok (watchLoop iters (some exercise.hint))

/-- Exit code of the `watch` subcommand (main.rs:295-314): a watch error
exits 1; a `Finished` or `Unfinished` session prints its message and `main`
returns normally (exit 0). `none` when the modelled session is still
running. -/
def watchModeExitCode (r : Except String (Option WatchStatus)) : Option Nat :=
  match r with
  | Except.error _ => some 1
  | Except.ok (some _) => some 0
  | Except.ok none => none

/-- Exit code of the `verify` subcommand (main.rs:249-251):
`verify(&exercises, (0, exercises.len())).unwrap_or_else(|_| exit(1))`. -/
def verifyModeExitCode (exercises : List Exercise) : Nat :=
  match verify exercises (0, exercises.length) with
  | Except.ok _ => 0
  | Except.error _ => 1

/-! ## Interactive shell (`spawn_watch_shell`, main.rs:318-354) -/

/-- Rust `str::trim`: strip whitespace from both ends. -/
def strTrim (s : String) : String :=
  String.mk (((s.data.dropWhile Char.isWhitespace).reverse.dropWhile Char.isWhitespace).reverse)

/-- The shell's reply to one input line (main.rs:326-352): the lines it
prints and whether it stores `true` into the shared `should_quit` flag.
`hint` prints the current shared hint when present and nothing otherwise;
`quit` sets the flag; unknown input is echoed. -/
def shellRespond (input : String) (currentHint : Option String) : List String × Bool :=
  let trimmed := strTrim input
  if trimmed = "hint" then
    match currentHint with
    | some hint => ([hint], false)
    | none => ([], false)
  else if trimmed = "clear" then (["\x1B[2J\x1B[1;1H"], false)
  else if trimmed = "quit" then (["Bye!"], true)
  else if trimmed = "help" then
    (["Comandos disponibles en modo watch:",
      "  hint  - imprime la pista del ejercicio actual",
      "  clear - limpia la pantalla",
      "  quit  - quita modo watch",
      "  help  - muestra este mensaje de ayuda",
      "",
      "El modo Watch reevalúa automáticamente el ejercicio en curso",
      "cuando edite el contenido de un archivo."], false)
  else (["unknown command: " ++ trimmed], false)

/-! ## Concrete sample data for witnesses and counterexamples -/

/-- A sample context line of a pending exercise. -/
def ctxSample : ContextLine := { line := "// I AM NOT DONE", number := 1, important := true }

/-- A completed exercise: toolchain succeeds, marker removed. -/
def exDoneA : Exercise :=
  { name := "intro1", path := ["exercises", "intro", "intro1.cairo"], mode := Mode.Compile,
    hint := "H_A", runResult := Except.ok "Hello", testResult := Except.ok "tests ok",
    state := State.Done }

/-- A second completed exercise. -/
def exDoneD : Exercise :=
  { name := "intro2", path := ["exercises", "intro", "intro2.cairo"], mode := Mode.Test,
    hint := "H_D", runResult := Except.ok "out", testResult := Except.ok "tests ok",
    state := State.Done }

/-- An exercise whose toolchain run succeeds but whose source still carries
the `I AM NOT DONE` marker. -/
def exPendingB : Exercise :=
  { name := "ops1", path := ["exercises", "ops", "ops1.cairo"], mode := Mode.Compile,
    hint := "H_B", runResult := Except.ok "out", testResult := Except.ok "t",
    state := State.Pending [ctxSample] }

/-- An exercise whose test-mode toolchain invocation fails. -/
def exFailC : Exercise :=
  { name := "ops2", path := ["exercises", "ops", "ops2.cairo"], mode := Mode.Test,
    hint := "H_C", runResult := Except.ok "o", testResult := Except.error "test failure",
    state := State.Pending [] }

/-! ## Basic lemmas -/

theorem looks_done_iff {e : Exercise} : looks_done e = true ↔ e.state = State.Done := by
  unfold looks_done
  cases e.state <;> simp

theorem stepPasses_eq (e : Exercise) : stepPasses e = (toolchainOk e && looks_done e) := by
  unfold stepPasses toolchainOk looks_done compile_and_run_interactively
    compile_and_test_interactively compile_and_run_cairo compile_and_test_cairo
    prompt_for_completion
  cases e.mode <;> cases hr : e.runResult <;> cases ht : e.testResult <;> cases e.state <;>
    simp [Except.isOk, Except.toBool]

theorem verify_ok_iff (exs : List Exercise) (p : Nat × Nat) :
    verify exs p = Except.ok () ↔ ∀ e ∈ exs, stepPasses e = true := by
  induction exs with
  | nil => simp [verify]
  | cons e rest ih =>
    by_cases h : stepPasses e
    · simp [verify, h, ih]
    · simp only [verify, h, if_false, Bool.false_eq_true]
      constructor
      · intro hc
        cases hc
      · intro hall
        exact absurd (hall e (List.mem_cons_self e rest)) (by simp [h])

theorem verify_error_mem {exs : List Exercise} {p : Nat × Nat} {e : Exercise}
    (h : verify exs p = Except.error e) : e ∈ exs := by
  induction exs with
  | nil => simp [verify] at h
  | cons x rest ih =>
    by_cases hx : stepPasses x
    · simp only [verify, hx, if_true] at h
      exact List.mem_cons_of_mem _ (ih h)
    · simp only [verify, hx, if_false, Bool.false_eq_true, Except.error.injEq] at h
      subst h
      exact List.mem_cons_self _ _

theorem verify_append_pass (pre rest : List Exercise) (p : Nat × Nat)
    (h : ∀ x ∈ pre, stepPasses x = true) :
    verify (pre ++ rest) p = verify rest p := by
  induction pre with
  | nil => rfl
  | cons x xs ih =>
    have hx := h x (List.mem_cons_self x xs)
    simp only [List.cons_append, verify, hx, if_true]
    exact ih (fun y hy => h y (List.mem_cons_of_mem _ hy))

theorem verifyInvoked_all_pass (exs : List Exercise)
    (h : ∀ e ∈ exs, stepPasses e = true) : verifyInvoked exs = exs := by
  induction exs with
  | nil => rfl
  | cons e rest ih =>
    have he := h e (List.mem_cons_self e rest)
    simp only [verifyInvoked, he, if_true]
    rw [ih (fun y hy => h y (List.mem_cons_of_mem _ hy))]

theorem mem_of_mem_reorderedSequence {x : Exercise} {s : List Exercise} {fp : List String}
    (h : x ∈ reorderedSequence s fp) : x ∈ s := by
  unfold reorderedSequence at h
  rcases List.mem_append.mp h with h | h
  · cases hf : s.find? (fun e => pathEndsWith fp e.path) with
    | none => simp [hf] at h
    | some y =>
      simp only [hf, Option.toList_some, List.mem_singleton] at h
      subst h
      exact List.mem_of_find?_eq_some hf
  · exact (List.mem_filter.mp h).1

/-! ## Scratch examples (concrete evaluation checks) -/

example : stepPasses exDoneA = true := by decide
example : stepPasses exDoneD = true := by decide
example : stepPasses exPendingB = false := by decide
example : stepPasses exFailC = false := by decide
example : verify [exDoneA, exFailC] (0, 2) = Except.error exFailC := by decide
example : verifyInvoked [exDoneA, exFailC] = [exDoneA, exFailC] := by decide
example : fileExtension "ops1.cairo" = some "cairo" := by decide
example : fileExtension "README" = none := by decide
example : fileExtension ".cairo" = none := by decide
example : pathEndsWith ["root", "exercises", "ops", "ops1.cairo"] ["exercises", "ops", "ops1.cairo"] = true := by decide
example :
    reorderedSequence [exDoneA, exPendingB, exFailC] ["root", "exercises", "ops", "ops1.cairo"] =
      [exPendingB, exFailC] := by decide
example : verifyBarMessages 0 2 [exDoneA, exDoneD] = [0, 0] := by
  have hA : stepPasses exDoneA = true := by decide
  have hD : stepPasses exDoneD = true := by decide
  simp [verifyBarMessages, hA, hD]
example : shellRespond "hint" (some "H_B") = (["H_B"], false) := by decide
example : shellRespond " quit " none = (["Bye!"], true) := by decide

/-! ## Claim theorems -/

/-- C1. Fail-fast verification: when every exercise of the sequence passes
(toolchain succeeds and the marker is absent), `verify` returns `Ok(())` and
the toolchain is invoked exactly once per exercise, in sequence order; when
the first failing exercise sits at position `k`, `verify` returns `Err`
referencing exactly that exercise and the toolchain is invoked exactly for
positions `0` through `k`. -/
theorem C1_fail_fast_verification (exs : List Exercise) (p : Nat × Nat) :
    ((∀ e ∈ exs, stepPasses e = true) →
        verify exs p = Except.ok () ∧ verifyInvoked exs = exs)
    ∧ (∀ k : Nat, ∀ hk : k < exs.length,
        (∀ i : Nat, ∀ hi : i < exs.length, i < k → stepPasses exs[i] = true) →
        stepPasses exs[k] = false →
        verify exs p = Except.error exs[k] ∧ verifyInvoked exs = exs.take (k + 1)) := by
  constructor
  · intro hall
    exact ⟨(verify_ok_iff exs p).mpr hall, verifyInvoked_all_pass exs hall⟩
  · intro k
    induction exs generalizing k with
    | nil => intro hk; exact absurd hk (by simp)
    | cons e rest ih =>
      intro hk hpass hfail
      cases k with
      | zero =>
        simp only [List.getElem_cons_zero] at hfail
        simp [verify, verifyInvoked, hfail]
      | succ k =>
        have he : stepPasses e = true := by
          have := hpass 0 (by simp) (by omega)
          simpa using this
        have hk' : k < rest.length := by simpa using hk
        have hpass' : ∀ i : Nat, ∀ hi : i < rest.length, i < k → stepPasses rest[i] = true := by
          intro i hi hik
          have := hpass (i + 1) (by simpa using Nat.succ_lt_succ hi) (by omega)
          simpa using this
        have hfail' : stepPasses rest[k] = false := by
          simpa using hfail
        obtain ⟨h1, h2⟩ := ih k hk' hpass' hfail'
        refine ⟨?_, ?_⟩
        · simpa [verify, he] using h1
        · simp [verifyInvoked, he, h2]

/-- Witness for C1 at the concrete input `[exDoneA, exFailC]`, whose first
failing exercise is at position 1: `verify` returns `Err exFailC` and the
toolchain invocation trace is the whole sequence. -/
theorem C1_witness :
    verify [exDoneA, exFailC] (0, 2) = Except.error exFailC
      ∧ verifyInvoked [exDoneA, exFailC] = [exDoneA, exFailC] := by
  have h := (C1_fail_fast_verification [exDoneA, exFailC] (0, 2)).2 1 (by decide)
    (by intro i hi hik
        interval_cases i
        simp only [List.getElem_cons_zero]
        decide)
    (by decide)
  simpa using h

/-- C2. Still-pending counts as failure: an exercise whose toolchain
invocation succeeds but whose re-read source is still `Pending` makes the
pass that reaches it return `Err` referencing it, and `verify` returns
`Ok(())` exactly when every exercise of the sequence has a successful
toolchain invocation and the `Done` marker state. -/
theorem C2_still_pending_counts_as_failure (p : Nat × Nat) :
    (∀ (pre post : List Exercise) (e : Exercise) (ctx : List ContextLine),
        (∀ x ∈ pre, stepPasses x = true) → toolchainOk e = true →
        e.state = State.Pending ctx →
        verify (pre ++ e :: post) p = Except.error e)
    ∧ (∀ exs : List Exercise,
        verify exs p = Except.ok () ↔
          ∀ x ∈ exs, toolchainOk x = true ∧ x.state = State.Done) := by
  constructor
  · intro pre post e ctx hpre htool hstate
    have hnotdone : looks_done e = false := by
      unfold looks_done
      rw [hstate]
    have hfail : stepPasses e = false := by
      rw [stepPasses_eq, hnotdone, Bool.and_false]
    rw [verify_append_pass pre (e :: post) p hpre]
    simp [verify, hfail]
  · intro exs
    rw [verify_ok_iff]
    constructor
    · intro hall x hx
      have := hall x hx
      rw [stepPasses_eq, Bool.and_eq_true] at this
      exact ⟨this.1, looks_done_iff.mp this.2⟩
    · intro hall x hx
      obtain ⟨h1, h2⟩ := hall x hx
      rw [stepPasses_eq, h1, looks_done_iff.mpr h2]
      rfl

/-- Witness for C2: in `[exDoneA, exPendingB]` the exercise `exPendingB`
has a successful toolchain run but a still-pending marker, and `verify`
returns `Err exPendingB`; dropping it from the sequence, `verify` of
`[exDoneA]` is `Ok` and indeed every member is toolchain-ok and `Done`. -/
theorem C2_witness :
    verify [exDoneA, exPendingB] (0, 2) = Except.error exPendingB
      ∧ (verify [exDoneA] (0, 1) = Except.ok () ↔
          ∀ x ∈ [exDoneA], toolchainOk x = true ∧ x.state = State.Done) := by
  constructor
  · exact (C2_still_pending_counts_as_failure (0, 2)).1 [exDoneA] [] exPendingB [ctxSample]
      (by intro x hx; simp at hx; subst hx; decide) (by decide) (by decide)
  · exact (C2_still_pending_counts_as_failure (0, 1)).2 [exDoneA]

/-- C3. Reordering on change: for an actionable change event (`Create`,
`Chmod` or `Write`, extension `cairo`, path still existing) whose path
matches a known exercise (the first one found by `find?`), the single
verification pass of that iteration is given that exercise first, followed
by the not-yet-done exercises excluding that path in manifest order, and
the progress pair is recomputed as (number of exercises currently
`looks_done`, total). -/
theorem C3_reordering_on_change (snapshot : List Exercise) (p : EventPath)
    (ev : DebEvent) (hint : Option String) (ex : Exercise)
    (hev : ev = DebEvent.create p ∨ ev = DebEvent.chmod p ∨ ev = DebEvent.write p)
    (hext : pathExtension p = some "cairo") (hex : p.existsNow = true)
    (hfind : snapshot.find? (fun e => pathEndsWith p.components e.path) = some ex) :
    (processPoll snapshot (PollResult.event ev) hint).verifyRuns =
      [(ex :: snapshot.filter (fun e => !looks_done e && !pathEndsWith p.components e.path),
        (snapshot.filter (fun e => looks_done e)).length, snapshot.length)] := by
  have hpending : reorderedSequence snapshot p.components =
      ex :: snapshot.filter (fun e => !looks_done e && !pathEndsWith p.components e.path) := by
    unfold reorderedSequence
    rw [hfind]
    rfl
  have hruns : (processPoll snapshot (PollResult.event ev) hint).verifyRuns =
      [(reorderedSequence snapshot p.components, watchNumDone snapshot, snapshot.length)] := by
    rcases hev with h | h | h <;> subst h <;>
      cases hv : verify (reorderedSequence snapshot p.components)
          (watchNumDone snapshot, snapshot.length) <;>
        simp [processPoll, hext, hex, hv]
  rw [hruns, hpending]
  rfl

/-- Witness for C3: a write event on `ops1.cairo` in the snapshot
`[exDoneA, exPendingB, exFailC]` yields one verify call on
`[exPendingB, exFailC]` with progress `(1, 3)`. -/
theorem C3_witness :
    (processPoll [exDoneA, exPendingB, exFailC]
        (PollResult.event (DebEvent.write
          ⟨["root", "exercises", "ops", "ops1.cairo"], true⟩))
        (some "H_A")).verifyRuns =
      [([exPendingB, exFailC], 1, 3)] := by
  have h := C3_reordering_on_change [exDoneA, exPendingB, exFailC]
    ⟨["root", "exercises", "ops", "ops1.cairo"], true⟩
    (DebEvent.write ⟨["root", "exercises", "ops", "ops1.cairo"], true⟩)
    (some "H_A") exPendingB (Or.inr (Or.inr rfl)) (by decide) rfl (by decide)
  rw [h]
  decide

/-- C4. Quit termination: an iteration whose event processing does not end
the session with `Finished` and whose end-of-iteration check sees the quit
flag returns `Unfinished`; in particular, when no change event ever arrives
(every poll is the 1-second timeout), the first iteration whose quit flag
is set ends the session with `Unfinished`. -/
theorem C4_quit_termination :
    (∀ (it : IterationInput) (rest : List IterationInput) (hint : Option String),
        (processPoll it.snapshot it.poll hint).finished = false →
        it.quitAfter = true →
        watchLoop (it :: rest) hint = some WatchStatus.Unfinished)
    ∧ (∀ (pre : List IterationInput) (it : IterationInput) (rest : List IterationInput)
        (hint : Option String),
        (∀ j ∈ pre, j.poll = PollResult.timeout ∧ j.quitAfter = false) →
        it.poll = PollResult.timeout → it.quitAfter = true →
        watchLoop (pre ++ it :: rest) hint = some WatchStatus.Unfinished) := by
  constructor
  · intro it rest hint hfin hquit
    simp [watchLoop, hfin, hquit]
  · intro pre
    induction pre with
    | nil =>
      intro it rest hint _ hpoll hquit
      simp [watchLoop, hpoll, hquit, processPoll]
    | cons j js ih =>
      intro it rest hint hall hpoll hquit
      obtain ⟨hjp, hjq⟩ := hall j (List.mem_cons_self j js)
      have hrec := ih it rest hint (fun x hx => hall x (List.mem_cons_of_mem _ hx)) hpoll hquit
      simp only [List.cons_append, watchLoop, hjp, processPoll, hjq]
      simpa using hrec

/-- Witness for C4: one timeout iteration with the quit flag set ends an
otherwise event-free session with `Unfinished`. -/
theorem C4_witness :
    watchLoop [{ poll := PollResult.timeout, snapshot := [exPendingB], quitAfter := true }]
      (some "H_B") = some WatchStatus.Unfinished :=
  (C4_quit_termination).2 []
    { poll := PollResult.timeout, snapshot := [exPendingB], quitAfter := true } [] (some "H_B")
    (by intro j hj; cases hj) rfl rfl

/-- C5. Actionability filter: an iteration whose poll result is not a
`Create`/`Chmod`/`Write` event with extension `cairo` on a still-existing
path performs no verification pass, never ends the session with `Finished`,
and leaves the shared hint unchanged; conversely any iteration that does
run a verification pass was actionable. -/
theorem C5_actionability_filter (snapshot : List Exercise) (poll : PollResult)
    (hint : Option String) :
    (actionablePoll poll = false →
        processPoll snapshot poll hint =
          { verifyRuns := [], finished := false, hint := hint })
    ∧ ((processPoll snapshot poll hint).verifyRuns ≠ [] → actionablePoll poll = true) := by
  have hmain : actionablePoll poll = false →
      processPoll snapshot poll hint =
        { verifyRuns := [], finished := false, hint := hint } := by
    intro h
    cases poll with
    | event ev =>
      cases ev with
      | create p =>
        simp only [actionablePoll] at h
        simp [processPoll, h]
      | chmod p =>
        simp only [actionablePoll] at h
        simp [processPoll, h]
      | write p =>
        simp only [actionablePoll] at h
        simp [processPoll, h]
      | other => rfl
    | timeout => rfl
    | recvError msg => rfl
  refine ⟨hmain, ?_⟩
  intro h
  rcases Bool.eq_false_or_eq_true (actionablePoll poll) with hb | hb
  · exact hb
  · exact absurd (by rw [hmain hb]) h

/-- Witness for C5: a write event on a `.txt` path performs no verification
pass and changes nothing. -/
theorem C5_witness :
    processPoll [exPendingB]
        (PollResult.event (DebEvent.write ⟨["root", "notes.txt"], true⟩)) (some "H_B") =
      { verifyRuns := [], finished := false, hint := some "H_B" } :=
  (C5_actionability_filter [exPendingB]
    (PollResult.event (DebEvent.write ⟨["root", "notes.txt"], true⟩)) (some "H_B")).1
    (by decide)

/-- C6 (amended). Progress display: during a verification pass the bar is
advanced by one unit per exercise that reaches a definitive success — its
positions are `num_done + 1, num_done + 2, ...`, one per success — while
every percentage message displays the constant fraction
`num_done / total * 100` computed from the progress pair at the start of
the pass (it is not updated as exercises complete within the pass). -/
theorem C6_progress_display (numDone total : Nat) (exs : List Exercise) :
    verifyBarPositions numDone exs = List.range' (numDone + 1) (passedPrefixCount exs)
    ∧ verifyBarMessages numDone total exs =
        List.replicate (passedPrefixCount exs) ((numDone : ℚ) / (total : ℚ) * 100) := by
  induction exs generalizing numDone with
  | nil => exact ⟨rfl, rfl⟩
  | cons e rest ih =>
    by_cases h : stepPasses e
    · obtain ⟨h1, h2⟩ := ih (numDone + 1)
      refine ⟨?_, ?_⟩
      · simp only [verifyBarPositions, passedPrefixCount, h, if_true, h1]
        rw [List.range'_succ]
      · simp only [verifyBarMessages, passedPrefixCount, h, if_true, (ih numDone).2]
        rfl
    · simp [verifyBarPositions, verifyBarMessages, passedPrefixCount, h]

/-- Counterexample to C6 as stated: with progress `(0, 2)` and two passing
exercises, the second percentage message displayed is `0`, although at that
point in the pass one exercise (50 %) — and after the accompanying
increment two exercises (100 %) — of the two are complete; the displayed
percentage is not the fraction complete at that point. -/
theorem C6_counterexample :
    verifyBarMessages 0 2 [exDoneA, exDoneD] = [0, 0]
      ∧ (1 : ℚ) / 2 * 100 = 50 ∧ (2 : ℚ) / 2 * 100 = 100
      ∧ (0 : ℚ) ≠ 50 ∧ (0 : ℚ) ≠ 100 := by
  refine ⟨?_, by norm_num, by norm_num, by norm_num, by norm_num⟩
  have hA : stepPasses exDoneA = true := by decide
  have hD : stepPasses exDoneD = true := by decide
  simp [verifyBarMessages, hA, hD]

/-- C7. Hint flow: when the verification pass triggered by an actionable
change event returns `Err(exercise)`, the shared hint cell holds
`Some(exercise.hint)` at the end of the iteration (the value the next loop
iteration starts from); and the shell's `hint` command prints exactly the
current hint when present and nothing when absent. -/
theorem C7_hint_flow (snapshot : List Exercise) (p : EventPath) (ev : DebEvent)
    (hint : Option String) (ex : Exercise) (h : String) :
    ((ev = DebEvent.create p ∨ ev = DebEvent.chmod p ∨ ev = DebEvent.write p) →
      pathExtension p = some "cairo" → p.existsNow = true →
      verify (reorderedSequence snapshot p.components)
          (watchNumDone snapshot, snapshot.length) = Except.error ex →
      (processPoll snapshot (PollResult.event ev) hint).hint = some ex.hint)
    ∧ shellRespond "hint" (some h) = ([h], false)
    ∧ shellRespond "hint" none = ([], false) := by
  refine ⟨?_, ?_, ?_⟩
  · intro hev hext hex hverify
    rcases hev with he | he | he <;> subst he <;>
      simp [processPoll, hext, hex, hverify]
  · have ht : strTrim "hint" = "hint" := by decide
    simp [shellRespond, ht]
  · have ht : strTrim "hint" = "hint" := by decide
    simp [shellRespond, ht]

/-- Witness for C7: a write event on `ops1.cairo` whose reordered pass fails
at `exPendingB` leaves the shared hint at `Some "H_B"`. -/
theorem C7_witness :
    (processPoll [exDoneA, exPendingB, exFailC]
        (PollResult.event (DebEvent.write
          ⟨["root", "exercises", "ops", "ops1.cairo"], true⟩))
        (some "H_A")).hint = some "H_B" := by
  have h := (C7_hint_flow [exDoneA, exPendingB, exFailC]
    ⟨["root", "exercises", "ops", "ops1.cairo"], true⟩
    (DebEvent.write ⟨["root", "exercises", "ops", "ops1.cairo"], true⟩)
    (some "H_A") exPendingB "unused").1 (Or.inr (Or.inr rfl)) (by decide) rfl (by decide)
  rw [h]
  rfl

/-- C8. Startup and exit-code errors: a failure of `Watcher::new` or of
`watcher.watch` on the root directory is returned by `watch` to its caller
unchanged, for every possible sequence of loop iterations (the event loop
is never entered), and the watch subcommand maps it to exit code 1; a
failed pass in `verify` (non-watch) mode also exits 1. -/
theorem C8_startup_and_exit_codes (e : String) (wr : Except String Unit)
    (exs : List Exercise) (iters : List IterationInput) :
    (watch (Except.error e) wr exs iters = Except.error e
      ∧ watch (Except.ok ()) (Except.error e) exs iters = Except.error e
      ∧ watchModeExitCode (Except.error e) = some 1)
    ∧ (verify exs (0, exs.length) ≠ Except.ok () → verifyModeExitCode exs = 1) := by
  refine ⟨⟨rfl, rfl, rfl⟩, ?_⟩
  intro h
  unfold verifyModeExitCode
  cases hv : verify exs (0, exs.length) with
  | ok u => cases u; exact absurd hv h
  | error ex => rfl

/-- Witness for C8: a concrete watcher-startup error is propagated and exits
1, and the failing sequence `[exFailC]` exits 1 in verify mode. -/
theorem C8_witness :
    (watch (Except.error "inotify limit reached") (Except.ok ()) [exFailC] []
          = Except.error "inotify limit reached"
      ∧ watch (Except.ok ()) (Except.error "inotify limit reached") [exFailC] []
          = Except.error "inotify limit reached"
      ∧ watchModeExitCode (Except.error "inotify limit reached") = some 1)
    ∧ verifyModeExitCode [exFailC] = 1 := by
  have h := C8_startup_and_exit_codes "inotify limit reached" (Except.ok ()) [exFailC] []
  exact ⟨h.1, h.2 (by decide)⟩

/-- C9. Empty-sequence edge case: `verify` of the empty sequence is `Ok(())`
with no toolchain invocation at all, and a watch-mode iteration whose
actionable event yields an empty reordered pending sequence ends the
session with outcome `Finished`. -/
theorem C9_empty_sequence (p : Nat × Nat) (snapshot : List Exercise) (pth : EventPath)
    (ev : DebEvent) (hint : Option String) (q : Bool) (rest : List IterationInput) :
    (verify [] p = Except.ok () ∧ verifyInvoked [] = [])
    ∧ ((ev = DebEvent.create pth ∨ ev = DebEvent.chmod pth ∨ ev = DebEvent.write pth) →
        pathExtension pth = some "cairo" → pth.existsNow = true →
        reorderedSequence snapshot pth.components = [] →
        (processPoll snapshot (PollResult.event ev) hint).finished = true
          ∧ watchLoop
              ({ poll := PollResult.event ev, snapshot := snapshot, quitAfter := q } :: rest)
              hint = some WatchStatus.Finished) := by
  refine ⟨⟨rfl, rfl⟩, ?_⟩
  intro hev hext hex hempty
  have hverify : verify (reorderedSequence snapshot pth.components)
      (watchNumDone snapshot, snapshot.length) = Except.ok () := by
    rw [hempty]
    rfl
  have hfin : (processPoll snapshot (PollResult.event ev) hint).finished = true := by
    rcases hev with he | he | he <;> subst he <;> simp [processPoll, hext, hex, hverify]
  refine ⟨hfin, ?_⟩
  simp [watchLoop, hfin]

/-- Witness for C9: a write event on a `.cairo` path matching no exercise,
over a snapshot whose only exercise is done, runs the empty pass and ends
the session with `Finished`. -/
theorem C9_witness :
    (processPoll [exDoneA]
        (PollResult.event (DebEvent.write ⟨["root", "exercises", "extra", "new.cairo"], true⟩))
        (some "H_A")).finished = true
      ∧ watchLoop
          [{ poll := PollResult.event
               (DebEvent.write ⟨["root", "exercises", "extra", "new.cairo"], true⟩),
             snapshot := [exDoneA], quitAfter := false }]
          (some "H_A") = some WatchStatus.Finished :=
  (C9_empty_sequence (0, 1) [exDoneA] ⟨["root", "exercises", "extra", "new.cairo"], true⟩
    (DebEvent.write ⟨["root", "exercises", "extra", "new.cairo"], true⟩)
    (some "H_A") false []).2 (Or.inr (Or.inr rfl)) (by decide) rfl (by decide)

/-- C10. Hint never cleared: `watch` enters the event loop with the shared
hint initialized to `Some` of the initially failing exercise's hint; every
iteration either leaves the hint cell untouched or writes `Some` of the
hint of one of the snapshot's exercises; hence the hint observed after any
completed iteration of a session that started with a `Some` hint is still
`Some`, so the shell's `hint` command always has a value to print. -/
theorem C10_hint_never_cleared :
    (∀ (exs : List Exercise) (iters : List IterationInput) (ex : Exercise),
        verify exs (0, exs.length) = Except.error ex →
        watch (Except.ok ()) (Except.ok ()) exs iters =
          Except.ok (watchLoop iters (some ex.hint)))
    ∧ (∀ (snapshot : List Exercise) (poll : PollResult) (hint : Option String),
        (processPoll snapshot poll hint).hint = hint
          ∨ ∃ ex ∈ snapshot, (processPoll snapshot poll hint).hint = some ex.hint)
    ∧ (∀ (iters : List IterationInput) (hint0 : Option String),
        hint0.isSome = true →
        ∀ h ∈ watchLoopHintTrace iters hint0, h.isSome = true) := by
  have hstep : ∀ (snapshot : List Exercise) (poll : PollResult) (hint : Option String),
      (processPoll snapshot poll hint).hint = hint
        ∨ ∃ ex ∈ snapshot, (processPoll snapshot poll hint).hint = some ex.hint := by
    intro snapshot poll hint
    cases poll with
    | event ev =>
      cases ev with
      | create p | chmod p | write p =>
        by_cases hcond : (decide (pathExtension p = some "cairo") && p.existsNow) = true
        · cases hv : verify (reorderedSequence snapshot p.components)
              (watchNumDone snapshot, snapshot.length) with
          | ok u =>
            left
            simp [processPoll, hcond, hv]
          | error ex =>
            right
            refine ⟨ex, mem_of_mem_reorderedSequence (verify_error_mem hv), ?_⟩
            simp [processPoll, hcond, hv]
        · left
          simp only [processPoll]
          rw [if_neg (by simpa using hcond)]
      | other => left; rfl
    | timeout => left; rfl
    | recvError msg => left; rfl
  refine ⟨?_, hstep, ?_⟩
  · intro exs iters ex hverify
    unfold watch
    rw [hverify]
  · intro iters
    induction iters with
    | nil => intro hint0 _ h hmem; cases hmem
    | cons it rest ih =>
      intro hint0 hsome h hmem
      have hkeep : ((processPoll it.snapshot it.poll hint0).hint).isSome = true := by
        rcases hstep it.snapshot it.poll hint0 with heq | ⟨ex, _, heq⟩
        · rw [heq]; exact hsome
        · rw [heq]; rfl
      simp only [watchLoopHintTrace] at hmem
      by_cases hfin : (processPoll it.snapshot it.poll hint0).finished = true
      · simp only [hfin, if_true, List.mem_singleton] at hmem
        subst hmem
        exact hkeep
      · rw [if_neg (by simpa using hfin)] at hmem
        by_cases hq : it.quitAfter = true
        · simp only [hq, if_true, List.mem_singleton] at hmem
          subst hmem
          exact hkeep
        · rw [if_neg (by simpa using hq)] at hmem
          rcases List.mem_cons.mp hmem with hmem | hmem
          · subst hmem; exact hkeep
          · exact ih ((processPoll it.snapshot it.poll hint0).hint) hkeep h hmem

/-- Witness for C10: a session over `[exPendingB]` seeded with hint
`Some "H_A"` whose one iteration re-fails `exPendingB` keeps a `Some`
hint after that iteration. -/
theorem C10_witness :
    Option.isSome (some "H_B" : Option String) = true :=
  (C10_hint_never_cleared).2.2
    [{ poll := PollResult.event
         (DebEvent.write ⟨["root", "exercises", "ops", "ops1.cairo"], true⟩),
       snapshot := [exPendingB], quitAfter := false }]
    (some "H_A") rfl (some "H_B") (by decide)

end Starklings
